import Mathlib

/-!
Verification of the CONFIG.toml checker (`checker/src/checklib/config.rs`).

The checker takes a parsed TOML tree, validates the three sections
`divisions`, `weightclasses` and `exemptions`, accumulates human-readable
error messages in a report, and produces an optional typed `Config`.

The embedding below mirrors the source file function by function. The TOML
tree is the inductive `Value`; the mutable `Report` is modelled by returning
the list of recorded messages. Domain primitives (`Age`, `Sex`, `Equipment`,
`WeightClassKg`, `Date`) live in the external `opltypes` crate and are
modelled from the specification, as noted on each.
-/

namespace OplConfig

/-- Shallow embedding of `toml::Value`, restricted to the node kinds the
checker examines: strings, numbers (integers and floats are collapsed into
one exact numeric constructor), booleans, arrays and tables. A table is an
association list in iteration order; the Rust `toml::value::Table` is a map
with unique sorted keys, so any list with unique keys represents one. -/
inductive Value where
  | str : String → Value
  | num : Rat → Value
  | bool : Bool → Value
  | array : List Value → Value
  | table : List (String × Value) → Value

/-- `Value::as_table`. -/
def Value.as_table : Value → Option (List (String × Value))
  | Value.table t => some t
  | _ => none

/-- `Value::as_array`. -/
def Value.as_array : Value → Option (List Value)
  | Value.array a => some a
  | _ => none

/-- `Value::as_str`. -/
def Value.as_str : Value → Option String
  | Value.str s => some s
  | _ => none

/-- `Value::get` with a string index: a table lookup, `None` on any
non-table value. -/
def Value.get : Value → String → Option Value
  | Value.table t, k => t.lookup k
  | _, _ => none

/-- Modelled from the spec: the external `Age` domain primitive — either an
exact age or an approximate age (uncertain by one year, displayed `n.5`), or
no age at all (`Age::None` in the source crate). -/
inductive Age where
  | exact : Nat → Age
  | approximate : Nat → Age
  | unknown : Age
deriving DecidableEq, Repr

/-- Modelled from the spec: the conservative "definitely less than"
comparison on ages. An approximate age `n.5` may stand for `n` or `n + 1`,
so it is definitely below another age only with a full year of slack; in
particular on two approximate ages the comparator is unreliable (it fails on
9.5 versus 10.5, as the checker source notes), which is why
`parse_divisions` special-cases that pair. -/
def Age.is_definitely_less_than : Age → Age → Bool
  | Age.exact a, Age.exact b => a < b
  | Age.exact a, Age.approximate b => a < b
  | Age.approximate a, Age.exact b => a + 1 < b
  | Age.approximate a, Age.approximate b => a + 1 < b
  | _, _ => false

/-- Modelled from the spec: the display form of an age (the `Display`
implementation in the source crate): approximate ages print with `.5`. -/
def Age.display : Age → String
  | Age.exact n => toString n
  | Age.approximate n => toString n ++ ".5"
  | Age.unknown => ""

/-- Modelled from the spec: deserializing an age literal from a
configuration node. A nonnegative integer literal is an exact age; a literal
with fractional part one half (such as `10.5`) is the approximate age
`n.5`; anything else fails. -/
def parseAge : Value → Option Age
  | Value.num q =>
      if 0 ≤ q ∧ q.den = 1 then some (Age.exact q.num.toNat)
      else if 0 ≤ q ∧ q.den = 2 then some (Age.approximate (q.num.toNat / 2))
      else none
  | _ => none

/-- Modelled from the spec: the external `Sex` domain primitive. -/
inductive Sex where
  | M : Sex
  | F : Sex
deriving DecidableEq, Repr

/-- Modelled from the spec: `str::parse::<Sex>`. -/
def parseSexStr : String → Option Sex
  | "M" => some Sex.M
  | "F" => some Sex.F
  | _ => none

/-- Modelled from the spec: deserializing a `Sex` from a configuration node
(the node must be a string). -/
def parseSexVal (v : Value) : Option Sex :=
  v.as_str.bind parseSexStr

/-- Modelled from the spec: the external `Equipment` domain primitive —
enumerated gear categories. -/
inductive Equipment where
  | raw : Equipment
  | wraps : Equipment
  | single : Equipment
  | multi : Equipment
deriving DecidableEq, Repr

/-- Modelled from the spec: `str::parse::<Equipment>`. -/
def parseEquipmentStr : String → Option Equipment
  | "Raw" => some Equipment.raw
  | "Wraps" => some Equipment.wraps
  | "Single-ply" => some Equipment.single
  | "Multi-ply" => some Equipment.multi
  | _ => none

/-- Modelled from the spec: deserializing an `Equipment` from a
configuration node (the node must be a string). -/
def parseEquipmentVal (v : Value) : Option Equipment :=
  v.as_str.bind parseEquipmentStr

/-- Modelled from the spec: a weight-class threshold, a weight in kilograms
marking the upper bound of a weight class, ordered by weight. -/
abbrev WeightClassKg := Rat

/-- Modelled from the spec: deserializing a weight-class threshold literal
from a configuration node (a positive weight in kilograms). -/
def parseWeightClassKg : Value → Option WeightClassKg
  | Value.num q => if 0 < q then some q else none
  | _ => none

/-- Modelled from the spec: a calendar date, stored as `yyyymmdd` so that
the numeric order is the chronological order. -/
structure Date where
  value : Nat
deriving DecidableEq, Repr

/-- Splitting a character list at a separator character. -/
def splitChars (sep : Char) : List Char → List (List Char)
  | [] => [[]]
  | c :: rest =>
      let r := splitChars sep rest
      if c = sep then [] :: r
      else
        match r with
        | h :: t => (c :: h) :: t
        | [] => [[c]]

/-- Reading a nonempty all-digit character list as a number. -/
def charsToNat? (cs : List Char) : Option Nat :=
  if cs.isEmpty then none
  else
    cs.foldl
      (fun acc c =>
        acc.bind fun n => if c.isDigit then some (n * 10 + (c.toNat - 48)) else none)
      (some 0)

/-- Modelled from the spec: deserializing a date literal of the form
`"YYYY-MM-DD"` from a configuration node. -/
def parseDate : Value → Option Date
  | Value.str s =>
      match (splitChars (Char.ofNat 45) s.data).map charsToNat? with
      | [some y, some m, some d] =>
          if 1 ≤ m ∧ m ≤ 12 ∧ 1 ≤ d ∧ d ≤ 31 then
            some ⟨y * 10000 + m * 100 + d⟩
          else none
      | _ => none
  | _ => none

/-- `Exemption`: used to exempt a specific meet from some of the checks. -/
inductive Exemption where
  | ExemptDivision : Exemption
  | ExemptLiftOrder : Exemption
  | ExemptWeightClassConsistency : Exemption
deriving DecidableEq, Repr

/-- `str::parse::<Exemption>`: the derived `EnumString` implementation
matches the variant name exactly. -/
def parseExemption : String → Option Exemption
  | "ExemptDivision" => some Exemption.ExemptDivision
  | "ExemptLiftOrder" => some Exemption.ExemptLiftOrder
  | "ExemptWeightClassConsistency" => some Exemption.ExemptWeightClassConsistency
  | _ => none

/-- `DivisionConfig`: a validated custom competitor category. -/
structure DivisionConfig where
  name : String
  min : Age
  max : Age
  sex : Option Sex
  equipment : Option (List Equipment)
  tested : Option Bool
deriving DecidableEq, Repr

/-- `WeightClassConfig`: a named weight-class scheme; `divisions` holds
indices into the `Config`'s division list. -/
structure WeightClassConfig where
  name : String
  classes : List WeightClassKg
  date_min : Date
  date_max : Date
  sex : Sex
  divisions : Option (List Nat)
deriving DecidableEq, Repr

/-- `ExemptionConfig`: binds a meet-folder identifier to its exemptions. -/
structure ExemptionConfig where
  meet_folder : String
  exemptions : List Exemption
deriving DecidableEq, Repr

/-- `Config`: the validated result of a successful parse. -/
structure Config where
  divisions : List DivisionConfig
  weightclasses : List WeightClassConfig
  exemptions : List ExemptionConfig
deriving DecidableEq, Repr

/-- `Config::exemptions_for`: returns an optional list of exemptions for the
given folder (`iter().find(..).map(..)`). -/
def Config.exemptions_for (c : Config) (meet_folder : String) :
    Option (List Exemption) :=
  (c.exemptions.find? fun ec => ec.meet_folder == meet_folder).map
    fun ec => ec.exemptions

/-- Substring occurrence over character lists. -/
def charsContain (pat : List Char) : List Char → Bool
  | [] => pat.isEmpty
  | c :: rest => pat.isPrefixOf (c :: rest) || charsContain pat rest

/-- `str::contains` for a string pattern. -/
def strContains (s pat : String) : Bool :=
  charsContain pat.data s.data

/-- The `sex` field of a division entry: optional; a present value that
fails to parse records an error and leaves the field absent. -/
def parse_sex_field (key : String) (v : Option Value) :
    List String × Option Sex :=
  match v with
  | some v =>
      match parseSexVal v with
      | some sex => ([], some sex)
      | none => ([s!"Failed parsing {key}.sex: invalid value"], none)
  | none => ([], none)

/-- The element loop of the array branch of the `equipment` field: one
error per element that fails to deserialize; elements that parse are kept
in order. -/
def parse_equipment_elems (key : String) :
    List Value → List String × List Equipment
  | [] => ([], [])
  | v :: rest =>
      let (errs, acc) := parse_equipment_elems key rest
      match parseEquipmentVal v with
      | some e => (errs, e :: acc)
      | none => (s!"Error in {key}.equipment: invalid value" :: errs, acc)

/-- The `equipment` field of a division entry: accepts a single string or an
array of strings. An empty array records an error (the field still becomes
the empty list); per-element failures are recorded individually; a lone
string that fails to parse leaves the field absent with an error, and a
value that is neither string nor array leaves it absent with an error
(the source misspells "string" in that message). -/
def parse_equipment_field (key : String) (v : Option Value) :
    List String × Option (List Equipment) :=
  match v with
  | some v =>
      match v.as_array with
      | some array =>
          let emptyErrs :=
            if array.isEmpty then [s!"{key}.equipment cannot be empty"] else []
          let (errs, vec) := parse_equipment_elems key array
          (emptyErrs ++ errs, some vec)
      | none =>
          match v.as_str with
          | some s =>
              match parseEquipmentStr s with
              | some equipment => ([], some [equipment])
              | none => ([s!"Error in {key}.equipment: invalid value"], none)
          | none => ([s!"{key}.equipment must be a sting or array"], none)
  | none => ([], none)

/-- The `tested` field of a division entry: read through `as_str`, so only a
present string is examined; `"Yes"`/`"No"` set the flag, any other string
records an error; a present non-string value is silently treated as
absent. -/
def parse_tested_field (key : String) (v : Option Value) :
    List String × Option Bool :=
  match v.bind Value.as_str with
  | some s =>
      match s with
      | "Yes" => ([], some true)
      | "No" => ([], some false)
      | _ => ([s!"Failed parsing {key}.tested: invalid '{s}'"], none)
  | none => ([], none)

/-- The special case in `parse_divisions` for two approximate ages, where
the raw comparator is unreliable: the check degrades to comparing the
approximate values. -/
def valid_approximate_ages : Age → Age → Bool
  | Age.approximate a, Age.approximate b => a < b
  | _, _ => false

/-- One entry of `parse_divisions`, mirroring the body of the source loop:
`name` (missing or non-string drops the entry), the uniqueness and
plural-"Masters" style checks (errors only), `min` and `max` (missing or
unparseable drops the entry), the age-range invariant (violation drops the
entry), then the optional `sex`, `equipment` and `tested` fields (never
dropping). `acc` is the list of already-accepted divisions, used only by
the uniqueness check. -/
def parse_division_entry (key : String) (division : Value)
    (acc : List DivisionConfig) : List String × Option DivisionConfig :=
  match (division.get "name").bind Value.as_str with
  | none => ([s!"Value '{key}.name' must be a String"], none)
  | some name =>
    let uniqueErrs :=
      if acc.any fun d => d.name == name then
        [s!"Division name '{name}' must be unique"]
      else []
    let masterErrs :=
      if strContains name "Master" && !strContains name "Masters" then
        [s!"Division name '{name}' must use plural 'Masters'"]
      else []
    let errs0 := uniqueErrs ++ masterErrs
    match division.get "min" with
    | none => (errs0 ++ [s!"Division '{key}' is missing the property 'min'"], none)
    | some vmin =>
      match parseAge vmin with
      | none => (errs0 ++ [s!"Failed parsing {key}.min: invalid value"], none)
      | some min_age =>
        match division.get "max" with
        | none => (errs0 ++ [s!"Division '{key}' is missing the property 'max'"], none)
        | some vmax =>
          match parseAge vmax with
          | none => (errs0 ++ [s!"Failed parsing {key}.max: invalid value"], none)
          | some max_age =>
            if min_age != max_age
                && !min_age.is_definitely_less_than max_age
                && !valid_approximate_ages min_age max_age then
              (errs0 ++
                [s!"Division '{key}' has an invalid age range '{min_age.display}-{max_age.display}'"],
               none)
            else
              let (sexErrs, sex) := parse_sex_field key (division.get "sex")
              let (eqErrs, equipment) :=
                parse_equipment_field key (division.get "equipment")
              let (testedErrs, tested) :=
                parse_tested_field key (division.get "tested")
              (errs0 ++ sexErrs ++ eqErrs ++ testedErrs,
               some { name := name, min := min_age, max := max_age,
                      sex := sex, equipment := equipment, tested := tested })

/-- The entry loop of `parse_divisions`: accepted entries accumulate at the
end of `acc` and are visible to the uniqueness check of later entries. -/
def parse_divisions_loop (acc : List DivisionConfig) :
    List (String × Value) → List String × List DivisionConfig
  | [] => ([], acc)
  | (key, division) :: rest =>
      let (errs, entry) := parse_division_entry key division acc
      let acc₂ := match entry with | some d => acc ++ [d] | none => acc
      let (restErrs, finalAcc) := parse_divisions_loop acc₂ rest
      (errs ++ restErrs, finalAcc)

/-- `parse_divisions`: the divisions section parser. Returns the recorded
messages together with the accepted entries. -/
def parse_divisions (value : Value) : List String × List DivisionConfig :=
  match value.as_table with
  | some t => parse_divisions_loop [] t
  | none => (["Section 'divisions' must be a Table"], [])

/-- The element loop of the `classes` array of a weight-class entry:
failures are recorded per element; elements that parse are kept in order. -/
def parse_class_elems (key : String) :
    List Value → List String × List WeightClassKg
  | [] => ([], [])
  | v :: rest =>
      let (errs, acc) := parse_class_elems key rest
      match parseWeightClassKg v with
      | some c => (errs, c :: acc)
      | none => (s!"Error in '{key}.classes': invalid value" :: errs, acc)

/-- The `date_range` field of a weight-class entry: a required two-element
array of dates; a missing or non-array value, a wrong length, or a failed
parse of either endpoint is fatal for the entry. -/
def parse_date_range (key : String) (v : Option Value) :
    List String × Option (Date × Date) :=
  match v.bind Value.as_array with
  | none => ([s!"Value '{key}.date_range' must be an Array"], none)
  | some array =>
      match array with
      | [v0, v1] =>
          match parseDate v0 with
          | none => ([s!"Error in '{key}.date_range': invalid date"], none)
          | some date_min =>
              match parseDate v1 with
              | none => ([s!"Error in '{key}.date_range': invalid date"], none)
              | some date_max => ([], some (date_min, date_max))
      | _ => ([s!"Array '{key}.date_range' must have 2 items"], none)

/-- `iter().position(|r| r.name == div)`: the index of the first division
with the given name. -/
def divisionPosition (divisions : List DivisionConfig) (div : String) :
    Option Nat :=
  match divisions with
  | [] => none
  | r :: rest =>
      if r.name == div then some 0
      else (divisionPosition rest div).map fun i => i + 1

/-- The element loop of the optional `divisions` field of a weight-class
entry: a non-string element or an unresolved division name records an error
and is skipped individually; resolved names become indices into the
division list. -/
def resolve_division_elems (key : String) (divisions : List DivisionConfig) :
    List Value → List String × List Nat
  | [] => ([], [])
  | v :: rest =>
      let (errs, acc) := resolve_division_elems key divisions rest
      match v.as_str with
      | some div =>
          match divisionPosition divisions div with
          | some idx => (errs, idx :: acc)
          | none => (s!"Invalid division '{div}' in {key}.divisions" :: errs, acc)
      | none =>
          (s!"Array '{key}.divisions' may only contain Strings" :: errs, acc)

/-- The optional `divisions` field of a weight-class entry: an absent field
is fine (`some none`); a present non-array value is fatal for the entry
(`none`); an array resolves element-wise, never fatally. -/
def parse_divfield (key : String) (v : Option Value)
    (divisions : List DivisionConfig) : List String × Option (Option (List Nat)) :=
  match v with
  | none => ([], some none)
  | some v =>
      match v.as_array with
      | none => ([s!"Value '{key}.divisions' must be an Array"], none)
      | some a =>
          let (errs, vec) := resolve_division_elems key divisions a
          (errs, some (some vec))

/-- The adjacent-ordering check on `classes` (the `for i in 1..len` loop):
one error for every adjacent pair that is not strictly increasing. -/
def classes_order_errors (key : String) : List WeightClassKg → List String
  | c0 :: c1 :: rest =>
      (if c0 ≥ c1 then
        [s!"WeightClassKg '{c0}' occurs before '{c1}' in [weightclasses.{key}]"]
       else []) ++ classes_order_errors key (c1 :: rest)
  | _ => []

/-- The number of adjacent pairs of a class list that are not strictly
increasing (the pairs the ordering check of `parse_weightclasses` reports). -/
def adjacent_inversions : List WeightClassKg → Nat
  | c0 :: c1 :: rest =>
      (if c0 ≥ c1 then 1 else 0) + adjacent_inversions (c1 :: rest)
  | _ => 0

/-- One entry of `parse_weightclasses`, mirroring the source loop body:
`classes` (must be an array; element failures are soft), `date_range` and
`sex` (fatal on failure), the optional `divisions` restriction (fatal only
when present and not an array), then the soft adjacent-ordering check; the
entry is appended whenever no fatal step failed. -/
def parse_weightclass_entry (key : String) (weightclass : Value)
    (divisions : List DivisionConfig) : List String × Option WeightClassConfig :=
  match (weightclass.get "classes").bind Value.as_array with
  | none => ([s!"Value '{key}.classes' must be an Array"], none)
  | some array =>
    let (classErrs, classes) := parse_class_elems key array
    match parse_date_range key (weightclass.get "date_range") with
    | (dateErrs, none) => (classErrs ++ dateErrs, none)
    | (dateErrs, some (date_min, date_max)) =>
      match (weightclass.get "sex").bind Value.as_str with
      | none => (classErrs ++ dateErrs ++ [s!"Value '{key}.sex' must be a String"], none)
      | some s =>
        match parseSexStr s with
        | none => (classErrs ++ dateErrs ++ [s!"Error in '{key}.sex': invalid value"], none)
        | some sex =>
          match parse_divfield key (weightclass.get "divisions") divisions with
          | (divErrs, none) => (classErrs ++ dateErrs ++ divErrs, none)
          | (divErrs, some divindices) =>
            let orderErrs := classes_order_errors key classes
            (classErrs ++ dateErrs ++ divErrs ++ orderErrs,
             some { name := key, classes := classes, date_min := date_min,
                    date_max := date_max, sex := sex, divisions := divindices })

/-- The entry loop of `parse_weightclasses`. -/
def parse_weightclasses_loop (divisions : List DivisionConfig) :
    List (String × Value) → List String × List WeightClassConfig
  | [] => ([], [])
  | (key, wc) :: rest =>
      let (errs, entry) := parse_weightclass_entry key wc divisions
      let (restErrs, acc) := parse_weightclasses_loop divisions rest
      (errs ++ restErrs, match entry with | some w => w :: acc | none => acc)

/-- `parse_weightclasses`: the weightclasses section parser, reading the
already-parsed division list to resolve division names to indices. -/
def parse_weightclasses (value : Value) (divisions : List DivisionConfig) :
    List String × List WeightClassConfig :=
  match value.as_table with
  | some t => parse_weightclasses_loop divisions t
  | none => (["Section 'weightclasses' must be a Table"], [])

/-- The inner loop of `parse_exemptions`: parses the elements of one
exemption array, recording one error per non-string element and one per
unparseable string, and keeping the elements that parse (the unparseable
string message ends with the external strum error text). -/
def parse_exemption_elems (key : String) :
    List Value → List String × List Exemption
  | [] => ([], [])
  | v :: rest =>
      let (errs, acc) := parse_exemption_elems key rest
      match v.as_str with
      | none => (s!"exemptions.{key} must contain Strings" :: errs, acc)
      | some s =>
          match parseExemption s with
          | some e => (errs, e :: acc)
          | none => (s!"Error in exemptions.{key}: Matching variant not found" :: errs, acc)

/-- One entry of `parse_exemptions`: the value must be an array, else the
entry is dropped with an error; an array entry is always appended, with
whatever elements parsed. -/
def parse_exemption_entry (key : String) (v : Value) :
    List String × Option ExemptionConfig :=
  match v.as_array with
  | none => ([s!"exemptions.{key} must be an Array"], none)
  | some elems =>
      let (errs, vec) := parse_exemption_elems key elems
      (errs, some { meet_folder := key, exemptions := vec })

/-- The entry loop of `parse_exemptions`. -/
def parse_exemptions_loop : List (String × Value) → List String × List ExemptionConfig
  | [] => ([], [])
  | (key, v) :: rest =>
      let (errs, entry) := parse_exemption_entry key v
      let (restErrs, acc) := parse_exemptions_loop rest
      (errs ++ restErrs, match entry with | some ec => ec :: acc | none => acc)

/-- `parse_exemptions`: the exemptions section parser. -/
def parse_exemptions (value : Value) : List String × List ExemptionConfig :=
  match value.as_table with
  | some t => parse_exemptions_loop t
  | none => (["Section 'exemptions' must be a Table"], [])

/-- The unknown-section scan of `parse_config`: one error per top-level key
outside the three recognized section names, in key order. -/
def unknown_section_errors (keys : List String) : List String :=
  keys.filterMap fun key =>
    match key with
    | "divisions" | "exemptions" | "weightclasses" => none
    | _ => some s!"Unknown section '{key}'"

/-- `parse_config`: the assembler. Takes the messages already recorded in
the report and returns the final report together with the optional `Config`
(the `CheckResult`). The root must be a table; each of the three sections
must be present, checked in the order divisions → weightclasses →
exemptions with an immediate `None` return on the first missing one; when
all three are present the top-level keys are scanned for unknown sections
(errors only) and the `Config` is produced. -/
def parse_config (root : Value) (report : List String) :
    List String × Option Config :=
  match root.as_table with
  | none => (report ++ ["Root value must be a Table"], none)
  | some table =>
    match table.lookup "divisions" with
    | none => (report ++ ["Missing the 'divisions' table"], none)
    | some dv =>
      let (divErrs, divisions) := parse_divisions dv
      match table.lookup "weightclasses" with
      | none => (report ++ divErrs ++ ["Missing the 'weightclasses' table"], none)
      | some wv =>
        let (wcErrs, weightclasses) := parse_weightclasses wv divisions
        match table.lookup "exemptions" with
        | none => (report ++ divErrs ++ wcErrs ++ ["Missing the 'exemptions' table"], none)
        | some ev =>
          let (exErrs, exemptions) := parse_exemptions ev
          let unkErrs := unknown_section_errors (table.map Prod.fst)
          (report ++ divErrs ++ wcErrs ++ exErrs ++ unkErrs,
           some { divisions := divisions, weightclasses := weightclasses,
                  exemptions := exemptions })

/-! ### Theorems about the claims -/

/-- C2: for every `Config` and meet-folder string, `exemptions_for` returns
`none` when no exemption entry has that key, and returns the exemption list
of the entry whose `meet_folder` equals the string when such an entry exists
and the keys are unique (the parser builds them from map keys, which are
unique by construction). -/
theorem exemptions_for_ok (c : Config) (s : String) :
    ((∀ ec ∈ c.exemptions, ec.meet_folder ≠ s) → c.exemptions_for s = none)
    ∧ (∀ ec, ec ∈ c.exemptions → ec.meet_folder = s →
        (∀ ec₂ ∈ c.exemptions, ec₂.meet_folder = s → ec₂ = ec) →
        c.exemptions_for s = some ec.exemptions) := by
  constructor
  · intro h
    unfold Config.exemptions_for
    rw [List.find?_eq_none.mpr fun ec hec => by simpa using h ec hec]
    rfl
  · intro ec hmem heq huniq
    unfold Config.exemptions_for
    cases hf : c.exemptions.find? fun ec => ec.meet_folder == s with
    | none =>
        exact absurd heq (by simpa using List.find?_eq_none.mp hf ec hmem)
    | some ec₂ =>
        have hmem₂ : ec₂ ∈ c.exemptions := List.mem_of_find?_eq_some hf
        have hp₂ : ec₂.meet_folder = s := by simpa using List.find?_some hf
        simp [huniq ec₂ hmem₂ hp₂]

/-- Witness for C2, the spec's own example: a config with the single entry
`[exemptions."1901"] = ["ExemptLiftOrder"]`. -/
theorem exemptions_for_witness :
    (Config.mk [] [] [⟨"1901", [Exemption.ExemptLiftOrder]⟩]).exemptions_for "1901"
        = some [Exemption.ExemptLiftOrder]
    ∧ (Config.mk [] [] [⟨"1901", [Exemption.ExemptLiftOrder]⟩]).exemptions_for "9999"
        = none := by
  constructor
  · exact (exemptions_for_ok (Config.mk [] [] [⟨"1901", [Exemption.ExemptLiftOrder]⟩])
      "1901").2 ⟨"1901", [Exemption.ExemptLiftOrder]⟩ (by simp) rfl (by decide)
  · exact (exemptions_for_ok (Config.mk [] [] [⟨"1901", [Exemption.ExemptLiftOrder]⟩])
      "9999").1 (by decide)

/-- The exemption element loop keeps exactly the elements that parse, in
order, and records one error per element that does not. -/
theorem parse_exemption_elems_spec (key : String) (elems : List Value) :
    (parse_exemption_elems key elems).2
        = elems.filterMap (fun v => v.as_str.bind parseExemption)
    ∧ (parse_exemption_elems key elems).1.length
        + (elems.filterMap fun v => v.as_str.bind parseExemption).length
        = elems.length := by
  induction elems with
  | nil => simp [parse_exemption_elems]
  | cons v rest ih =>
      obtain ⟨ih₁, ih₂⟩ := ih
      rcases he : parse_exemption_elems key rest with ⟨errs, acc⟩
      rw [he] at ih₁ ih₂
      dsimp only at ih₁ ih₂
      cases hs : v.as_str with
      | none =>
          simp only [parse_exemption_elems, he, hs, List.filterMap_cons,
            Option.none_bind, List.length_cons]
          exact ⟨ih₁, by omega⟩
      | some s =>
          cases hp : parseExemption s with
          | none =>
              simp only [parse_exemption_elems, he, hs, hp, List.filterMap_cons,
                Option.some_bind, List.length_cons]
              exact ⟨ih₁, by omega⟩
          | some e =>
              simp only [parse_exemption_elems, he, hs, hp, List.filterMap_cons,
                Option.some_bind, List.length_cons]
              exact ⟨by simp [ih₁], by omega⟩

/-- Every meet-folder key in the output of the exemptions entry loop is a
key of the input table. -/
theorem parse_exemptions_loop_keys (t : List (String × Value)) :
    ∀ ec ∈ (parse_exemptions_loop t).2, ec.meet_folder ∈ t.map Prod.fst := by
  induction t with
  | nil => simp [parse_exemptions_loop]
  | cons p rest ih =>
      obtain ⟨k₀, v₀⟩ := p
      intro ec hec
      rcases hl : parse_exemptions_loop rest with ⟨restErrs, acc⟩
      rw [hl] at ih
      cases ha : v₀.as_array with
      | none =>
          simp only [parse_exemptions_loop, parse_exemption_entry, ha, hl] at hec
          exact List.mem_cons_of_mem _ (ih ec hec)
      | some elems =>
          simp only [parse_exemptions_loop, parse_exemption_entry, ha, hl] at hec
          rcases List.mem_cons.mp hec with rfl | h₂
          · exact List.mem_cons_self _ _
          · exact List.mem_cons_of_mem _ (ih ec h₂)

/-- C10: in `parse_exemptions`, an entry whose value is not an array records
an error and is dropped entirely — under the map-key uniqueness of the TOML
table, no `ExemptionConfig` with that meet-folder key appears in the
output — whereas an entry whose value is an array is always appended, its
non-string and unparseable elements being skipped individually with one
recorded error each. -/
theorem parse_exemptions_entry_policy (t : List (String × Value)) (key : String)
    (v : Value) (hmem : (key, v) ∈ t) (huniq : (t.map Prod.fst).Nodup) :
    (v.as_array = none →
        s!"exemptions.{key} must be an Array" ∈ (parse_exemptions_loop t).1
        ∧ ∀ ec ∈ (parse_exemptions_loop t).2, ec.meet_folder ≠ key)
    ∧ (∀ elems, v.as_array = some elems →
        (⟨key, elems.filterMap fun e => e.as_str.bind parseExemption⟩ : ExemptionConfig)
            ∈ (parse_exemptions_loop t).2
        ∧ (parse_exemption_elems key elems).1.length
            + (elems.filterMap fun e => e.as_str.bind parseExemption).length
            = elems.length) := by
  induction t with
  | nil => cases hmem
  | cons p rest ih =>
      obtain ⟨k₀, v₀⟩ := p
      simp only [List.map_cons, List.nodup_cons] at huniq
      obtain ⟨hk₀, huniq'⟩ := huniq
      rcases hl : parse_exemptions_loop rest with ⟨restErrs, acc⟩
      rcases List.mem_cons.mp hmem with heq | hmem₂
      · injection heq with h₁ h₂
        subst h₁
        subst h₂
        constructor
        · intro ha
          constructor
          · simp [parse_exemptions_loop, parse_exemption_entry, ha, hl]
          · intro ec hec
            simp only [parse_exemptions_loop, parse_exemption_entry, ha, hl] at hec
            have := parse_exemptions_loop_keys rest ec (by rw [hl]; exact hec)
            intro hfold
            exact hk₀ (hfold ▸ this)
        · intro elems ha
          have hspec := parse_exemption_elems_spec key elems
          refine ⟨?_, hspec.2⟩
          rcases hee : parse_exemption_elems key elems with ⟨errs, vec⟩
          rw [hee] at hspec
          dsimp only at hspec
          simp only [parse_exemptions_loop, parse_exemption_entry, ha, hl, hee,
            List.mem_cons]
          exact Or.inl (by rw [← hspec.1])
      · have ihm := ih hmem₂ huniq'
        rw [hl] at ihm
        have hkey : key ∈ rest.map Prod.fst :=
          List.mem_map.mpr ⟨(key, v), hmem₂, rfl⟩
        constructor
        · intro ha
          obtain ⟨hmsg, hconf⟩ := ihm.1 ha
          cases hae : v₀.as_array with
          | none =>
              refine ⟨?_, ?_⟩
              · simp [parse_exemptions_loop, parse_exemption_entry, hae, hl]
                exact Or.inr hmsg
              · intro ec hec
                simp only [parse_exemptions_loop, parse_exemption_entry, hae, hl] at hec
                exact hconf ec hec
          | some elems₀ =>
              refine ⟨?_, ?_⟩
              · simp only [parse_exemptions_loop, parse_exemption_entry, hae, hl,
                  List.mem_append]
                exact Or.inr hmsg
              · intro ec hec
                simp only [parse_exemptions_loop, parse_exemption_entry, hae, hl] at hec
                rcases List.mem_cons.mp hec with rfl | h₂
                · intro hfold
                  have hk : k₀ = key := hfold
                  exact hk₀ (by rw [hk]; exact hkey)
                · exact hconf ec h₂
        · intro elems ha
          obtain ⟨hconf, hcount⟩ := ihm.2 elems ha
          refine ⟨?_, hcount⟩
          cases hae : v₀.as_array with
          | none =>
              simp only [parse_exemptions_loop, parse_exemption_entry, hae, hl]
              exact hconf
          | some elems₀ =>
              simp only [parse_exemptions_loop, parse_exemption_entry, hae, hl]
              exact List.mem_cons_of_mem _ hconf

/-- Witness for C10: the entry `2000` maps to a non-array and is dropped
with an error; the entry `1901` maps to an array with one good string, one
non-string and one unknown string, is appended with exactly the good
exemption, and two errors are recorded for the two bad elements. -/
theorem parse_exemptions_entry_policy_witness :
    (s!"exemptions.2000 must be an Array"
        ∈ (parse_exemptions_loop
            [("1901", Value.array [Value.str "ExemptLiftOrder", Value.bool true,
                                   Value.str "Bogus"]),
             ("2000", Value.bool false)]).1
      ∧ ∀ ec ∈ (parse_exemptions_loop
            [("1901", Value.array [Value.str "ExemptLiftOrder", Value.bool true,
                                   Value.str "Bogus"]),
             ("2000", Value.bool false)]).2, ec.meet_folder ≠ "2000")
    ∧ (⟨"1901", [Exemption.ExemptLiftOrder]⟩ : ExemptionConfig)
        ∈ (parse_exemptions_loop
            [("1901", Value.array [Value.str "ExemptLiftOrder", Value.bool true,
                                   Value.str "Bogus"]),
             ("2000", Value.bool false)]).2 := by
  refine ⟨(parse_exemptions_entry_policy
      [("1901", Value.array [Value.str "ExemptLiftOrder", Value.bool true,
                             Value.str "Bogus"]),
       ("2000", Value.bool false)] "2000" (Value.bool false)
      (List.mem_cons_of_mem _ (List.mem_cons_self _ _)) (by decide)).1 rfl, ?_⟩
  have h := (parse_exemptions_entry_policy
      [("1901", Value.array [Value.str "ExemptLiftOrder", Value.bool true,
                             Value.str "Bogus"]),
       ("2000", Value.bool false)] "1901"
      (Value.array [Value.str "ExemptLiftOrder", Value.bool true, Value.str "Bogus"])
      (List.mem_cons_self _ _) (by decide)).2
      [Value.str "ExemptLiftOrder", Value.bool true, Value.str "Bogus"] rfl
  simpa using h.1

/-- C1: for every root table, a missing `divisions`, `weightclasses` or
`exemptions` section makes `parse_config` record exactly the error naming
the missing table and return `config = None` immediately: the final report
extends the initial one with only the errors of the sections before the
missing one (in the order divisions → weightclasses → exemptions) and the
missing-table message, so no later section is parsed. -/
theorem parse_config_missing_section (kvs : List (String × Value))
    (report : List String) :
    (kvs.lookup "divisions" = none →
        parse_config (Value.table kvs) report
          = (report ++ ["Missing the 'divisions' table"], none))
    ∧ (∀ dv, kvs.lookup "divisions" = some dv →
        kvs.lookup "weightclasses" = none →
        parse_config (Value.table kvs) report
          = (report ++ (parse_divisions dv).1
              ++ ["Missing the 'weightclasses' table"], none))
    ∧ (∀ dv wv, kvs.lookup "divisions" = some dv →
        kvs.lookup "weightclasses" = some wv →
        kvs.lookup "exemptions" = none →
        parse_config (Value.table kvs) report
          = (report ++ (parse_divisions dv).1
              ++ (parse_weightclasses wv (parse_divisions dv).2).1
              ++ ["Missing the 'exemptions' table"], none)) := by
  refine ⟨fun h₁ => ?_, fun dv h₁ h₂ => ?_, fun dv wv h₁ h₂ h₃ => ?_⟩
  · simp [parse_config, Value.as_table, h₁]
  · rcases hd : parse_divisions dv with ⟨divErrs, divisions⟩
    simp [parse_config, Value.as_table, h₁, h₂, hd]
  · rcases hd : parse_divisions dv with ⟨divErrs, divisions⟩
    rcases hw : parse_weightclasses wv divisions with ⟨wcErrs, weightclasses⟩
    simp [parse_config, Value.as_table, h₁, h₂, h₃, hd, hw]

/-- Witness for C1: a root table whose only section is an empty `divisions`
table is missing `weightclasses`, so the report gains exactly the
missing-table error and no config is produced; a root missing `divisions`
reports that table instead, and a root with `divisions` and `weightclasses`
but no `exemptions` reports the exemptions table. -/
theorem parse_config_missing_section_witness :
    parse_config (Value.table [("divisions", Value.table [])]) []
        = (["Missing the 'weightclasses' table"], none)
    ∧ parse_config (Value.table []) []
        = (["Missing the 'divisions' table"], none)
    ∧ parse_config (Value.table [("divisions", Value.table []),
        ("weightclasses", Value.table [])]) []
        = (["Missing the 'exemptions' table"], none) := by
  refine ⟨?_, ?_, ?_⟩
  · have h := (parse_config_missing_section [("divisions", Value.table [])] []).2.1
      (Value.table []) rfl rfl
    simpa using h
  · exact (parse_config_missing_section [] []).1 rfl
  · have h := (parse_config_missing_section
      [("divisions", Value.table []), ("weightclasses", Value.table [])] []).2.2
      (Value.table []) (Value.table []) rfl rfl rfl
    simpa using h

/-- C6: when all three required sections are present, `parse_config`
produces `Some` config holding the three parsed lists — unknown extra
sections never withhold the config — and the report additionally gains one
`Unknown section` error for every top-level key outside
`divisions`/`weightclasses`/`exemptions`. -/
theorem parse_config_unknown_sections (kvs : List (String × Value))
    (report : List String) (dv wv ev : Value)
    (h₁ : kvs.lookup "divisions" = some dv)
    (h₂ : kvs.lookup "weightclasses" = some wv)
    (h₃ : kvs.lookup "exemptions" = some ev) :
    parse_config (Value.table kvs) report
      = (report ++ (parse_divisions dv).1
          ++ (parse_weightclasses wv (parse_divisions dv).2).1
          ++ (parse_exemptions ev).1
          ++ unknown_section_errors (kvs.map Prod.fst),
         some ⟨(parse_divisions dv).2,
               (parse_weightclasses wv (parse_divisions dv).2).2,
               (parse_exemptions ev).2⟩)
    ∧ ∀ key ∈ kvs.map Prod.fst,
        key ≠ "divisions" → key ≠ "exemptions" → key ≠ "weightclasses" →
        s!"Unknown section '{key}'" ∈ (parse_config (Value.table kvs) report).1 := by
  rcases hd : parse_divisions dv with ⟨divErrs, divisions⟩
  rcases hw : parse_weightclasses wv divisions with ⟨wcErrs, weightclasses⟩
  rcases he : parse_exemptions ev with ⟨exErrs, exemptions⟩
  have heq : parse_config (Value.table kvs) report
      = (report ++ divErrs ++ wcErrs ++ exErrs
          ++ unknown_section_errors (kvs.map Prod.fst),
         some ⟨divisions, weightclasses, exemptions⟩) := by
    simp [parse_config, Value.as_table, h₁, h₂, h₃, hd, hw, he]
  refine ⟨by simp [heq, hd, hw, he], ?_⟩
  intro key hkey hne₁ hne₂ hne₃
  rw [heq]
  have : s!"Unknown section '{key}'" ∈ unknown_section_errors (kvs.map Prod.fst) := by
    unfold unknown_section_errors
    refine List.mem_filterMap.mpr ⟨key, hkey, ?_⟩
    simp [hne₁, hne₂, hne₃]
  simp only [List.mem_append]
  exact Or.inr this

/-- Witness for C6: a well-formed config with an extra `[foo]` section still
yields `Some` config, and the report contains the unknown-section error. -/
theorem parse_config_unknown_sections_witness :
    (parse_config (Value.table
        [("divisions", Value.table []), ("exemptions", Value.table []),
         ("foo", Value.bool true), ("weightclasses", Value.table [])]) []).2
      = some ⟨[], [], []⟩
    ∧ "Unknown section 'foo'"
        ∈ (parse_config (Value.table
            [("divisions", Value.table []), ("exemptions", Value.table []),
             ("foo", Value.bool true), ("weightclasses", Value.table [])]) []).1 := by
  have h := parse_config_unknown_sections
    [("divisions", Value.table []), ("exemptions", Value.table []),
     ("foo", Value.bool true), ("weightclasses", Value.table [])] []
    (Value.table []) (Value.table []) (Value.table []) rfl rfl rfl
  constructor
  · rw [h.1]
    rfl
  · exact h.2 "foo" (by simp) (by decide) (by decide) (by decide)

/-- C3: given a division entry whose name, `min` and `max` all parse, the
entry is dropped — and then the invalid-age-range error is recorded —
exactly when `min` and `max` differ, `min` is not definitely less than
`max`, and the two are not approximate ages with increasing approximate
values. -/
theorem parse_divisions_age_range (key : String) (division : Value)
    (acc : List DivisionConfig) (name : String) (vmin vmax : Value)
    (min_age max_age : Age)
    (hname : (division.get "name").bind Value.as_str = some name)
    (hmin : division.get "min" = some vmin)
    (hpmin : parseAge vmin = some min_age)
    (hmax : division.get "max" = some vmax)
    (hpmax : parseAge vmax = some max_age) :
    ((parse_division_entry key division acc).2 = none ↔
      (min_age ≠ max_age
        ∧ min_age.is_definitely_less_than max_age = false
        ∧ valid_approximate_ages min_age max_age = false))
    ∧ ((parse_division_entry key division acc).2 = none →
        s!"Division '{key}' has an invalid age range '{min_age.display}-{max_age.display}'"
          ∈ (parse_division_entry key division acc).1) := by
  have hcond : (min_age != max_age
      && !min_age.is_definitely_less_than max_age
      && !valid_approximate_ages min_age max_age) = true
      ↔ (min_age ≠ max_age
        ∧ min_age.is_definitely_less_than max_age = false
        ∧ valid_approximate_ages min_age max_age = false) := by
    simp [Bool.and_eq_true, and_assoc]
  rcases hsex : parse_sex_field key (division.get "sex") with ⟨sexErrs, sex⟩
  rcases heqp : parse_equipment_field key (division.get "equipment") with ⟨eqErrs, equipment⟩
  rcases ht : parse_tested_field key (division.get "tested") with ⟨testedErrs, tested⟩
  by_cases hc : (min_age != max_age
      && !min_age.is_definitely_less_than max_age
      && !valid_approximate_ages min_age max_age) = true
  · have hent : parse_division_entry key division acc
        = ((if acc.any fun d => d.name == name then
              [s!"Division name '{name}' must be unique"] else [])
            ++ (if strContains name "Master" && !strContains name "Masters" then
              [s!"Division name '{name}' must use plural 'Masters'"] else [])
            ++ [s!"Division '{key}' has an invalid age range '{min_age.display}-{max_age.display}'"],
           none) := by
      simp only [parse_division_entry, hname, hmin, hpmin, hmax, hpmax, hc, if_true]
    refine ⟨iff_of_true (by rw [hent]) (hcond.mp hc), fun _ => ?_⟩
    rw [hent]
    simp
  · have hc' : (min_age != max_age
        && !min_age.is_definitely_less_than max_age
        && !valid_approximate_ages min_age max_age) = false :=
      Bool.eq_false_iff.mpr hc
    have hent : (parse_division_entry key division acc).2
        = some ⟨name, min_age, max_age, sex, equipment, tested⟩ := by
      simp only [parse_division_entry, hname, hmin, hpmin, hmax, hpmax, hc',
        Bool.false_eq_true, if_false, hsex, heqp, ht]
    refine ⟨iff_of_false (by rw [hent]; simp) fun h => hc (hcond.mpr h),
      fun h => absurd h (by rw [hent]; simp)⟩

/-- Witness for C3, the spec's own example: the entry with approximate
`min = 10.5`, `max = 9.5` is dropped with the age-range error, and a
divisions table declaring it alongside one valid entry yields a list one
shorter than the number of declared entries. -/
theorem parse_divisions_age_range_witness :
    ((parse_division_entry "bad"
        (Value.table [("max", Value.num ⟨19, 2, by decide, by decide⟩),
                      ("min", Value.num ⟨21, 2, by decide, by decide⟩),
                      ("name", Value.str "Bad")]) []).2 = none
      ↔ (Age.approximate 10 ≠ Age.approximate 9
          ∧ (Age.approximate 10).is_definitely_less_than (Age.approximate 9) = false
          ∧ valid_approximate_ages (Age.approximate 10) (Age.approximate 9) = false))
    ∧ (parse_division_entry "bad"
        (Value.table [("max", Value.num ⟨19, 2, by decide, by decide⟩),
                      ("min", Value.num ⟨21, 2, by decide, by decide⟩),
                      ("name", Value.str "Bad")]) []).2 = none
    ∧ (parse_divisions (Value.table
        [("bad", Value.table [("max", Value.num ⟨19, 2, by decide, by decide⟩),
                              ("min", Value.num ⟨21, 2, by decide, by decide⟩),
                              ("name", Value.str "Bad")]),
         ("open", Value.table [("max", Value.num ⟨999, 1, by decide, by decide⟩),
                               ("min", Value.num ⟨0, 1, by decide, by decide⟩),
                               ("name", Value.str "Open")])])).2.length = 1 := by
  refine ⟨(parse_divisions_age_range "bad"
      (Value.table [("max", Value.num ⟨19, 2, by decide, by decide⟩),
                    ("min", Value.num ⟨21, 2, by decide, by decide⟩),
                    ("name", Value.str "Bad")]) [] "Bad"
      (Value.num ⟨21, 2, by decide, by decide⟩)
      (Value.num ⟨19, 2, by decide, by decide⟩)
      (Age.approximate 10) (Age.approximate 9)
      rfl rfl (by decide) rfl (by decide)).1, by decide, by decide⟩

/-- C7: a division entry whose name duplicates an already-accepted division
name records the must-be-unique error, but the duplication never affects
whether the entry is kept: the produced optional record is the same as with
any other accumulator, so a duplicate entry still passes through the
remaining checks and is appended if it passes them. -/
theorem parse_divisions_duplicate_name (key : String) (division : Value)
    (acc : List DivisionConfig) (name : String)
    (hname : (division.get "name").bind Value.as_str = some name)
    (hdup : ∃ d ∈ acc, d.name = name) :
    s!"Division name '{name}' must be unique"
        ∈ (parse_division_entry key division acc).1
    ∧ ∀ acc' : List DivisionConfig,
        (parse_division_entry key division acc).2
          = (parse_division_entry key division acc').2 := by
  have hany : (acc.any fun d => d.name == name) = true := by
    obtain ⟨d, hd, hdn⟩ := hdup
    exact List.any_eq_true.mpr ⟨d, hd, by simp [hdn]⟩
  constructor
  · simp only [parse_division_entry, hname]
    repeat' split
    all_goals simp [hany]
  · intro acc'
    simp only [parse_division_entry, hname]
    repeat' split
    all_goals rfl

/-- Witness for C7: with an `Open` division already accepted, a second entry
named `Open` records the uniqueness error yet is still appended (its result
equals the one computed with an empty accumulator, which is `some`). -/
theorem parse_divisions_duplicate_name_witness :
    "Division name 'Open' must be unique"
        ∈ (parse_division_entry "open2"
            (Value.table [("max", Value.num ⟨999, 1, by decide, by decide⟩),
                          ("min", Value.num ⟨0, 1, by decide, by decide⟩),
                          ("name", Value.str "Open")])
            [⟨"Open", Age.exact 0, Age.exact 999, none, none, none⟩]).1
    ∧ (parse_division_entry "open2"
        (Value.table [("max", Value.num ⟨999, 1, by decide, by decide⟩),
                      ("min", Value.num ⟨0, 1, by decide, by decide⟩),
                      ("name", Value.str "Open")])
        [⟨"Open", Age.exact 0, Age.exact 999, none, none, none⟩]).2
      = (parse_division_entry "open2"
        (Value.table [("max", Value.num ⟨999, 1, by decide, by decide⟩),
                      ("min", Value.num ⟨0, 1, by decide, by decide⟩),
                      ("name", Value.str "Open")]) []).2 := by
  have h := parse_divisions_duplicate_name "open2"
    (Value.table [("max", Value.num ⟨999, 1, by decide, by decide⟩),
                  ("min", Value.num ⟨0, 1, by decide, by decide⟩),
                  ("name", Value.str "Open")])
    [⟨"Open", Age.exact 0, Age.exact 999, none, none, none⟩] "Open"
    rfl ⟨⟨"Open", Age.exact 0, Age.exact 999, none, none, none⟩, by simp, rfl⟩
  exact ⟨h.1, h.2 []⟩

/-- The equipment element loop keeps exactly the elements that deserialize,
in order, and records one error per element that does not. -/
theorem parse_equipment_elems_spec (key : String) (arr : List Value) :
    (parse_equipment_elems key arr).2 = arr.filterMap parseEquipmentVal
    ∧ (parse_equipment_elems key arr).1.length
        + (arr.filterMap parseEquipmentVal).length = arr.length := by
  induction arr with
  | nil => simp [parse_equipment_elems]
  | cons v rest ih =>
      obtain ⟨ih₁, ih₂⟩ := ih
      rcases he : parse_equipment_elems key rest with ⟨errs, acc⟩
      rw [he] at ih₁ ih₂
      dsimp only at ih₁ ih₂
      cases hp : parseEquipmentVal v with
      | none =>
          simp only [parse_equipment_elems, he, hp, List.filterMap_cons,
            List.length_cons]
          exact ⟨ih₁, by omega⟩
      | some e =>
          simp only [parse_equipment_elems, he, hp, List.filterMap_cons,
            List.length_cons]
          exact ⟨by simp [ih₁], by omega⟩

/-- Counterexample to C8: the raw `equipment` value `"Bogus"` is itself a
string, yet the resulting field is absent (`none`) because the string fails
to parse — so it is not the case that the field is `None` only if the raw
value is not itself a string or array. -/
theorem parse_equipment_field_none_counterexample :
    (Value.str "Bogus").as_str = some "Bogus"
    ∧ (parse_equipment_field "open" (some (Value.str "Bogus"))).2 = none := by
  decide

/-- C8 amended: the `equipment` field accepts a single string or an array of
strings; an empty array records an error (the field still becomes the empty
list); per-element parse failures in an array are recorded individually
without dropping the successfully parsed elements; and the resulting field
is absent exactly when the raw value is neither an array nor a successfully
parsing string — in particular a string that fails to parse also leaves the
field `None`, not only a value that is neither string nor array. -/
theorem parse_equipment_field_ok (key : String) (v : Value) :
    (∀ arr, v.as_array = some arr →
        parse_equipment_field key (some v)
          = ((if arr.isEmpty then [s!"{key}.equipment cannot be empty"] else [])
              ++ (parse_equipment_elems key arr).1,
             some (parse_equipment_elems key arr).2)
        ∧ (parse_equipment_elems key arr).2 = arr.filterMap parseEquipmentVal
        ∧ (parse_equipment_elems key arr).1.length
            + (arr.filterMap parseEquipmentVal).length = arr.length)
    ∧ ((parse_equipment_field key (some v)).2 = none ↔
        (v.as_array = none ∧ ∀ s, v.as_str = some s → parseEquipmentStr s = none)) := by
  constructor
  · intro arr ha
    have hspec := parse_equipment_elems_spec key arr
    rcases he : parse_equipment_elems key arr with ⟨errs, vec⟩
    rw [he] at hspec
    dsimp only at hspec
    refine ⟨?_, hspec.1, hspec.2⟩
    simp only [parse_equipment_field, ha, he]
  · cases ha : v.as_array with
    | some arr =>
        rcases he : parse_equipment_elems key arr with ⟨errs, vec⟩
        simp [parse_equipment_field, ha, he]
    | none =>
        cases hs : v.as_str with
        | some s =>
            cases hp : parseEquipmentStr s with
            | some e => simp [parse_equipment_field, ha, hs, hp]
            | none => simp [parse_equipment_field, ha, hs, hp]
        | none => simp [parse_equipment_field, ha, hs]

/-- Witness for C8 amended: an array with one good and one bad element keeps
the good one and records one error; the field from that array is present;
the field from the unparseable string `"Bogus"` is absent. -/
theorem parse_equipment_field_ok_witness :
    (parse_equipment_elems "open" [Value.str "Raw", Value.str "Bogus"]).2
        = [Equipment.raw]
    ∧ (parse_equipment_elems "open" [Value.str "Raw", Value.str "Bogus"]).1.length
        + (List.filterMap parseEquipmentVal [Value.str "Raw", Value.str "Bogus"]).length
        = 2
    ∧ (parse_equipment_field "open"
        (some (Value.array [Value.str "Raw", Value.str "Bogus"]))).2
        = some [Equipment.raw]
    ∧ (parse_equipment_field "open" (some (Value.str "Bogus"))).2 = none := by
  have h := parse_equipment_field_ok "open"
    (Value.array [Value.str "Raw", Value.str "Bogus"])
  have h₁ := h.1 [Value.str "Raw", Value.str "Bogus"] rfl
  have h₂ := (parse_equipment_field_ok "open" (Value.str "Bogus")).2.mpr
    ⟨rfl, fun s hs => by
      cases hs
      rfl⟩
  refine ⟨by rw [h₁.2.1]; rfl, h₁.2.2, ?_, h₂⟩
  rw [h₁.1]
  decide

/-- Counterexample to C9: a `tested` value that is present but is not a
string (here the boolean `true`) is read through `as_str`, so the parser
silently records no error at all — contradicting the claim that any
non-"Yes"/"No" value present under `tested` causes an error to be
recorded. -/
theorem parse_tested_field_counterexample :
    parse_tested_field "open" (some (Value.bool true)) = ([], none) := by
  decide

/-- C9 amended: the optional `tested` field parses only the literal strings
"Yes" (true) and "No" (false); any other string records an error and leaves
the field absent; a present non-string value is silently ignored — no error
is recorded — and also leaves the field absent. -/
theorem parse_tested_field_ok (key : String) (v : Value) :
    (v.as_str = some "Yes" → parse_tested_field key (some v) = ([], some true))
    ∧ (v.as_str = some "No" → parse_tested_field key (some v) = ([], some false))
    ∧ (∀ s, v.as_str = some s → s ≠ "Yes" → s ≠ "No" →
        parse_tested_field key (some v)
          = ([s!"Failed parsing {key}.tested: invalid '{s}'"], none))
    ∧ (v.as_str = none → parse_tested_field key (some v) = ([], none)) := by
  refine ⟨fun h => ?_, fun h => ?_, fun s h hs₁ hs₂ => ?_, fun h => ?_⟩
  · simp [parse_tested_field, h]
  · simp [parse_tested_field, h]
  · simp only [parse_tested_field, Option.some_bind, h]
  · simp [parse_tested_field, h]

/-- Witness for C9 amended: `"Yes"` and `"No"` set the flag, the string
`"Maybe"` records the invalid-value error, and a non-string records
nothing. -/
theorem parse_tested_field_ok_witness :
    parse_tested_field "open" (some (Value.str "Yes")) = ([], some true)
    ∧ parse_tested_field "open" (some (Value.str "No")) = ([], some false)
    ∧ parse_tested_field "open" (some (Value.str "Maybe"))
        = (["Failed parsing open.tested: invalid 'Maybe'"], none)
    ∧ parse_tested_field "open" (some (Value.bool false)) = ([], none) := by
  refine ⟨(parse_tested_field_ok "open" (Value.str "Yes")).1 rfl,
    (parse_tested_field_ok "open" (Value.str "No")).2.1 rfl,
    ?_,
    (parse_tested_field_ok "open" (Value.bool false)).2.2.2 rfl⟩
  exact (parse_tested_field_ok "open" (Value.str "Maybe")).2.2.1 "Maybe" rfl
    (by decide) (by decide)

/-- The ordering check emits exactly one error per adjacent
non-strictly-increasing pair. -/
theorem classes_order_errors_count (key : String) (cs : List WeightClassKg) :
    (classes_order_errors key cs).length = adjacent_inversions cs := by
  induction cs with
  | nil => rfl
  | cons c0 rest ih =>
      cases rest with
      | nil => rfl
      | cons c1 rest' =>
          by_cases hc : c1 ≤ c0
          · simp [classes_order_errors, adjacent_inversions, hc, ih,
              Nat.add_comm]
          · simp [classes_order_errors, adjacent_inversions, hc, ih]

/-- C4: for a weightclasses entry that survives the fatal steps (classes
array present, well-formed date range, parsing sex, divisions restriction
not fatally malformed), the recorded errors end with the ordering errors —
one separate error for every adjacent pair of classes that is not strictly
increasing — and the entry is nevertheless appended with its classes in
their original parsed order. -/
theorem parse_weightclasses_ordering (key : String) (wc : Value)
    (divisions : List DivisionConfig) (arr : List Value)
    (hclasses : (wc.get "classes").bind Value.as_array = some arr)
    (dmin dmax : Date)
    (hdr : parse_date_range key (wc.get "date_range") = ([], some (dmin, dmax)))
    (s : String) (hs : (wc.get "sex").bind Value.as_str = some s)
    (sex : Sex) (hps : parseSexStr s = some sex)
    (divErrs : List String) (dvf : Option (List Nat))
    (hdiv : parse_divfield key (wc.get "divisions") divisions = (divErrs, some dvf)) :
    parse_weightclass_entry key wc divisions
      = ((parse_class_elems key arr).1 ++ divErrs
          ++ classes_order_errors key (parse_class_elems key arr).2,
         some ⟨key, (parse_class_elems key arr).2, dmin, dmax, sex, dvf⟩)
    ∧ (classes_order_errors key (parse_class_elems key arr).2).length
        = adjacent_inversions (parse_class_elems key arr).2 := by
  rcases hce : parse_class_elems key arr with ⟨classErrs, classes⟩
  refine ⟨?_, classes_order_errors_count key _⟩
  simp only [parse_weightclass_entry, hclasses, hce, hdr, hs, hps, hdiv]
  simp

/-- Witness for C4, the spec's own example: `classes = [90, 82.5]`
(descending) yields exactly one ordering error and the entry is still
present with both values in file order. -/
theorem parse_weightclasses_ordering_witness :
    parse_weightclass_entry "default_M"
      (Value.table
        [("classes", Value.array
            [Value.num ⟨90, 1, by decide, by decide⟩,
             Value.num ⟨165, 2, by decide, by decide⟩]),
         ("date_range", Value.array
            [Value.str "1999-01-01", Value.str "2000-12-31"]),
         ("sex", Value.str "M")]) []
      = (["WeightClassKg '90' occurs before '165/2' in [weightclasses.default_M]"],
         some ⟨"default_M",
               [⟨90, 1, by decide, by decide⟩, ⟨165, 2, by decide, by decide⟩],
               ⟨19990101⟩, ⟨20001231⟩, Sex.M, none⟩)
    ∧ (classes_order_errors "default_M"
        [⟨90, 1, by decide, by decide⟩, ⟨165, 2, by decide, by decide⟩]).length
        = adjacent_inversions
            [⟨90, 1, by decide, by decide⟩, ⟨165, 2, by decide, by decide⟩] := by
  have h := parse_weightclasses_ordering "default_M"
    (Value.table
      [("classes", Value.array
          [Value.num ⟨90, 1, by decide, by decide⟩,
           Value.num ⟨165, 2, by decide, by decide⟩]),
       ("date_range", Value.array
          [Value.str "1999-01-01", Value.str "2000-12-31"]),
       ("sex", Value.str "M")]) []
    [Value.num ⟨90, 1, by decide, by decide⟩,
     Value.num ⟨165, 2, by decide, by decide⟩] rfl
    ⟨19990101⟩ ⟨20001231⟩ (by decide) "M" rfl Sex.M rfl [] none rfl
  constructor
  · rw [h.1]
    decide
  · exact classes_order_errors_count "default_M" _

/-- A value whose `as_str` is `some s` is the string node `s`. -/
theorem as_str_eq_some {v : Value} {s : String} (h : v.as_str = some s) :
    v = Value.str s := by
  cases v <;> simp_all [Value.as_str]

/-- A successful `iter().position` result is a valid index pointing at a
division with the searched name. -/
theorem divisionPosition_spec (divisions : List DivisionConfig) (div : String)
    (idx : Nat) (h : divisionPosition divisions div = some idx) :
    ∃ hlt : idx < divisions.length, (divisions.get ⟨idx, hlt⟩).name = div := by
  induction divisions generalizing idx with
  | nil => cases h
  | cons r rest ih =>
      by_cases hr : (r.name == div) = true
      · simp only [divisionPosition, hr, if_true] at h
        cases h
        exact ⟨Nat.succ_pos _, by simpa using hr⟩
      · simp only [divisionPosition, hr, Bool.false_eq_true, if_false,
          Option.map_eq_some'] at h
        obtain ⟨i, hi, rfl⟩ := h
        obtain ⟨hlt, hname⟩ := ih i hi
        exact ⟨Nat.succ_lt_succ hlt, by simpa using hname⟩

/-- The division-name resolution loop: every produced index points at a
division whose name equals some string element of the array, and one error
is recorded per element that is skipped. -/
theorem resolve_division_elems_spec (key : String)
    (divisions : List DivisionConfig) (elems : List Value) :
    (∀ idx ∈ (resolve_division_elems key divisions elems).2,
        ∃ hlt : idx < divisions.length, ∃ t : String,
          Value.str t ∈ elems ∧ (divisions.get ⟨idx, hlt⟩).name = t)
    ∧ (resolve_division_elems key divisions elems).1.length
        + (resolve_division_elems key divisions elems).2.length
        = elems.length := by
  induction elems with
  | nil => simp [resolve_division_elems]
  | cons v rest ih =>
      obtain ⟨ih₁, ih₂⟩ := ih
      rcases he : resolve_division_elems key divisions rest with ⟨errs, acc⟩
      rw [he] at ih₁ ih₂
      dsimp only at ih₁ ih₂
      cases hs : v.as_str with
      | none =>
          simp only [resolve_division_elems, he, hs, List.length_cons]
          refine ⟨fun idx hidx => ?_, by omega⟩
          obtain ⟨hlt, t, hmem, hname⟩ := ih₁ idx hidx
          exact ⟨hlt, t, List.mem_cons_of_mem _ hmem, hname⟩
      | some div =>
          cases hp : divisionPosition divisions div with
          | none =>
              simp only [resolve_division_elems, he, hs, hp, List.length_cons]
              refine ⟨fun idx hidx => ?_, by omega⟩
              obtain ⟨hlt, t, hmem, hname⟩ := ih₁ idx hidx
              exact ⟨hlt, t, List.mem_cons_of_mem _ hmem, hname⟩
          | some i =>
              simp only [resolve_division_elems, he, hs, hp, List.length_cons]
              constructor
              · intro idx hidx
                rcases List.mem_cons.mp hidx with rfl | h₂
                · obtain ⟨hlt, hname⟩ := divisionPosition_spec divisions div idx hp
                  exact ⟨hlt, div, by rw [as_str_eq_some hs]; exact List.mem_cons_self _ _, hname⟩
                · obtain ⟨hlt, t, hmem, hname⟩ := ih₁ idx h₂
                  exact ⟨hlt, t, List.mem_cons_of_mem _ hmem, hname⟩
              · omega

/-- C5: for a weightclasses entry that survives the fatal steps and whose
optional `divisions` field is an array, each non-string or unresolved
element is skipped individually with one recorded error each, the entry is
still appended, and every stored index is the position of a division whose
name equals the element — in particular strictly less than the length of
the division list. -/
theorem parse_weightclasses_division_indices (key : String) (wc : Value)
    (divisions : List DivisionConfig) (arr : List Value)
    (hclasses : (wc.get "classes").bind Value.as_array = some arr)
    (dmin dmax : Date)
    (hdr : parse_date_range key (wc.get "date_range") = ([], some (dmin, dmax)))
    (s : String) (hs : (wc.get "sex").bind Value.as_str = some s)
    (sex : Sex) (hps : parseSexStr s = some sex)
    (dv : Value) (elems : List Value)
    (hdv : wc.get "divisions" = some dv) (hda : dv.as_array = some elems) :
    (parse_weightclass_entry key wc divisions).2
      = some ⟨key, (parse_class_elems key arr).2, dmin, dmax, sex,
              some (resolve_division_elems key divisions elems).2⟩
    ∧ (∀ idx ∈ (resolve_division_elems key divisions elems).2,
        ∃ hlt : idx < divisions.length, ∃ t : String,
          Value.str t ∈ elems ∧ (divisions.get ⟨idx, hlt⟩).name = t)
    ∧ (resolve_division_elems key divisions elems).1.length
        + (resolve_division_elems key divisions elems).2.length
        = elems.length := by
  have hspec := resolve_division_elems_spec key divisions elems
  refine ⟨?_, hspec.1, hspec.2⟩
  rcases hre : resolve_division_elems key divisions elems with ⟨errs, idxs⟩
  have hdiv : parse_divfield key (wc.get "divisions") divisions
      = (errs, some (some idxs)) := by
    simp only [parse_divfield, hdv, hda, hre]
  rcases hce : parse_class_elems key arr with ⟨classErrs, classes⟩
  simp only [parse_weightclass_entry, hclasses, hce, hdr, hs, hps, hdiv]

/-- Witness for C5: a `divisions` restriction naming the one existing
division `Open`, one non-string element and one unknown name resolves to
exactly the index `0 < 1`, records two errors, and the entry is still
produced. -/
theorem parse_weightclasses_division_indices_witness :
    (parse_weightclass_entry "wc"
      (Value.table
        [("classes", Value.array [Value.num ⟨60, 1, by decide, by decide⟩]),
         ("date_range", Value.array
            [Value.str "1999-01-01", Value.str "2000-12-31"]),
         ("divisions", Value.array
            [Value.str "Open", Value.bool true, Value.str "Nope"]),
         ("sex", Value.str "F")])
      [⟨"Open", Age.exact 0, Age.exact 999, none, none, none⟩]).2
      = some ⟨"wc", [⟨60, 1, by decide, by decide⟩], ⟨19990101⟩, ⟨20001231⟩,
              Sex.F, some [0]⟩
    ∧ ∀ idx ∈ (resolve_division_elems "wc"
        [⟨"Open", Age.exact 0, Age.exact 999, none, none, none⟩]
        [Value.str "Open", Value.bool true, Value.str "Nope"]).2,
        idx < 1 := by
  have h := parse_weightclasses_division_indices "wc"
    (Value.table
      [("classes", Value.array [Value.num ⟨60, 1, by decide, by decide⟩]),
       ("date_range", Value.array
          [Value.str "1999-01-01", Value.str "2000-12-31"]),
       ("divisions", Value.array
          [Value.str "Open", Value.bool true, Value.str "Nope"]),
       ("sex", Value.str "F")])
    [⟨"Open", Age.exact 0, Age.exact 999, none, none, none⟩]
    [Value.num ⟨60, 1, by decide, by decide⟩] rfl
    ⟨19990101⟩ ⟨20001231⟩ (by decide) "F" rfl Sex.F rfl
    (Value.array [Value.str "Open", Value.bool true, Value.str "Nope"])
    [Value.str "Open", Value.bool true, Value.str "Nope"] rfl rfl
  constructor
  · rw [h.1]
    decide
  · intro idx hidx
    obtain ⟨hlt, _⟩ := h.2.1 idx hidx
    simpa using hlt

end OplConfig
